import Mathlib

/-!
Verification of the palimpzest declarative data-transformation system.

This file gives a shallow embedding of the parts of the source that the
verified properties talk about:

* `sets.py` / `sets/sets.py` : the `Set` chain, `serialize`,
  `universal_identifier` (SHA-256 of a key-sorted JSON dump) and
  `getLogicalTree`;
* `datasources/datadirectory.py` : the `_DataDirectory` stream cache
  (`openCache` / `appendCache` / `closeCache` / `hasCachedAnswer` /
  `getCachedResult`);
* `operators/physical.py` : `estimateCost` of `InduceFromCandidateOp` and
  `FilterCandidateOp`, and the `FilterCandidateOp.__iter__` loop;
* `strategies/code_synthesis.py` and `strategies/bonded_query.py` : the
  code-synthesis convert operator, its `_shouldSynthesize` tactics, the
  bonded-query fallback and the per-field conventional fallback;
* `elements/records.py` : the `DataRecord.__setattr__` guard.

Machine-level collaborators that are not under the source tree (the
completion service, the solver, the schema classes, the artifact cache of
the data manager) are modelled as explicit oracle parameters, following
the external-interface section of the specification.
-/

/-! ## JSON values and the key-sorted dump of `json.dumps(d, sort_keys=True)` -/

/-- A JSON value as produced by the python `serialize` methods.  Numeric
literals are represented by their dump text (`json.dumps` prints `0.1` for
the float `0.1` and `5` for the int `5`), which keeps the embedding exact
without floating point. -/
inductive Json where
  | null : Json
  | bool (b : Bool) : Json
  | num (lit : String) : Json
  | str (s : String) : Json
  | arr (elements : List Json) : Json
  | obj (entries : List (String × Json)) : Json

/-- Lower-case hexadecimal digit. -/
def hexDigit (n : Nat) : Char :=
  if n < 10 then Char.ofNat (48 + n) else Char.ofNat (87 + n)

/-- Four-digit hexadecimal rendering, as used by the `\u` escapes of
`json.dumps` (which runs with `ensure_ascii=True` by default). -/
def hex4 (n : Nat) : String :=
  String.mk [hexDigit (n / 4096 % 16), hexDigit (n / 256 % 16),
             hexDigit (n / 16 % 16), hexDigit (n % 16)]

/-- Escape one character the way `json.dumps` does with `ensure_ascii`. -/
def jsonEscapeChar (c : Char) : String :=
  let n := c.toNat
  if n = 34 then "\\\""
  else if n = 92 then "\\\\"
  else if n = 10 then "\\n"
  else if n = 9 then "\\t"
  else if n = 13 then "\\r"
  else if n = 8 then "\\b"
  else if n = 12 then "\\f"
  else if n < 32 then "\\u" ++ hex4 n
  else if n < 127 then String.singleton c
  else if n ≤ 65535 then "\\u" ++ hex4 n
  else
    let m := n - 65536
    "\\u" ++ hex4 (55296 + m / 1024) ++ "\\u" ++ hex4 (56320 + m % 1024)

/-- Quote a string as a JSON string literal. -/
def jsonQuote (s : String) : String :=
  "\"" ++ String.join (s.data.map jsonEscapeChar) ++ "\""

/-- Sort the entries of a JSON object by key, as `sort_keys=True` does
(python `sorted` compares strings by code points, which is exactly the
linear order on `String`). -/
def sortEntries (kvs : List (String × Json)) : List (String × Json) :=
  List.insertionSort (fun a b => a.1 ≤ b.1) kvs

mutual
/-- Recursively sort every object of a JSON value by key.  Dumping the
result without further sorting is the same as `json.dumps(d, sort_keys=True)`. -/
def canon : Json → Json
  | .null => .null
  | .bool b => .bool b
  | .num lit => .num lit
  | .str s => .str s
  | .arr xs => .arr (canonList xs)
  | .obj kvs => .obj (sortEntries (canonEntries kvs))

def canonList : List Json → List Json
  | [] => []
  | x :: xs => canon x :: canonList xs

def canonEntries : List (String × Json) → List (String × Json)
  | [] => []
  | (k, v) :: rest => (k, canon v) :: canonEntries rest
end

mutual
/-- Print a JSON value with the default separators of `json.dumps`
(a comma-space between items, a colon-space between key and value). -/
def printJson : Json → String
  | .null => "null"
  | .bool true => "true"
  | .bool false => "false"
  | .num lit => lit
  | .str s => jsonQuote s
  | .arr xs => "[" ++ String.intercalate ", " (printList xs) ++ "]"
  | .obj kvs => "\x7b" ++ String.intercalate ", " (printEntries kvs) ++ "\x7d"

def printList : List Json → List String
  | [] => []
  | x :: xs => printJson x :: printList xs

def printEntries : List (String × Json) → List String
  | [] => []
  | (k, v) :: rest => (jsonQuote k ++ ": " ++ printJson v) :: printEntries rest
end

/-- The embedding of `json.dumps(d, sort_keys=True)`. -/
def dumpsSorted (j : Json) : String :=
  printJson (canon j)

/-! ## SHA-256 (`hashlib.sha256(...).hexdigest()`)

A direct executable implementation over `Nat`, with explicit reduction
modulo `2 ^ 32` wherever 32-bit overflow matters. -/

/-- Two to the thirty-second power, the modulus of 32-bit words. -/
def w32 : Nat := 4294967296

/-- Addition of 32-bit words. -/
def add32 (a b : Nat) : Nat := (a + b) % w32

/-- Rotate a 32-bit word right by `n` places, via division and
remainder. -/
def rotr32 (n x : Nat) : Nat :=
  (x / 2 ^ n + x % 2 ^ n * 2 ^ (32 - n)) % w32

/-- Logical right shift of a 32-bit word. -/
def shr32 (n x : Nat) : Nat := x / 2 ^ n

def sigBig0 (x : Nat) : Nat := rotr32 2 x ^^^ rotr32 13 x ^^^ rotr32 22 x
def sigBig1 (x : Nat) : Nat := rotr32 6 x ^^^ rotr32 11 x ^^^ rotr32 25 x
def sigSmall0 (x : Nat) : Nat := rotr32 7 x ^^^ rotr32 18 x ^^^ shr32 3 x
def sigSmall1 (x : Nat) : Nat := rotr32 17 x ^^^ rotr32 19 x ^^^ shr32 10 x

/-- The SHA-256 round constants, in decimal. -/
def sha256K : List Nat :=
  [1116352408, 1899447441, 3049323471, 3921009573, 961987163, 1508970993,
   2453635748, 2870763221, 3624381080, 310598401, 607225278, 1426881987,
   1925078388, 2162078206, 2614888103, 3248222580, 3835390401, 4022224774,
   264347078, 604807628, 770255983, 1249150122, 1555081692, 1996064986,
   2554220882, 2821834349, 2952996808, 3210313671, 3336571891, 3584528711,
   113926993, 338241895, 666307205, 773529912, 1294757372, 1396182291,
   1695183700, 1986661051, 2177026350, 2456956037, 2730485921, 2820302411,
   3259730800, 3345764771, 3516065817, 3600352804, 4094571909, 275423344,
   430227734, 506948616, 659060556, 883997877, 958139571, 1322822218,
   1537002063, 1747873779, 1955562222, 2024104815, 2227730452, 2361852424,
   2428436474, 2756734187, 3204031479, 3329325298]

/-- The SHA-256 initial hash value, in decimal. -/
def sha256H0 : List Nat :=
  [1779033703, 3144134277, 1013904242, 2773480762,
   1359893119, 2600822924, 528734635, 1541459225]

/-- Big-endian bytes of a 64-bit length. -/
def be64 (n : Nat) : List Nat :=
  [n / 2 ^ 56 % 256, n / 2 ^ 48 % 256, n / 2 ^ 40 % 256, n / 2 ^ 32 % 256,
   n / 2 ^ 24 % 256, n / 2 ^ 16 % 256, n / 2 ^ 8 % 256, n % 256]

/-- SHA-256 padding: append `0x80`, zero bytes up to 56 mod 64, then the
bit length as a big-endian 64-bit integer. -/
def sha256Pad (msg : List Nat) : List Nat :=
  let padZeros := (55 + 64 - msg.length % 64) % 64
  msg ++ [128] ++ List.replicate padZeros 0 ++ be64 (8 * msg.length)

/-- Group four bytes into one big-endian 32-bit word. -/
def bytesToWords : List Nat → List Nat
  | b0 :: b1 :: b2 :: b3 :: rest =>
      (b0 * 16777216 + b1 * 65536 + b2 * 256 + b3) :: bytesToWords rest
  | _ => []

/-- Extend the 16-word message block to the 64-word schedule; `fuel`
counts the words still to be produced. -/
def scheduleGo : Nat → Array Nat → Array Nat
  | 0, w => w
  | n + 1, w =>
      let i := w.size
      let wNew := add32 (add32 (sigSmall1 (w.getD (i - 2) 0)) (w.getD (i - 7) 0))
                        (add32 (sigSmall0 (w.getD (i - 15) 0)) (w.getD (i - 16) 0))
      scheduleGo n (w.push wNew)

/-- The full 64-word message schedule of one block. -/
def sha256Schedule (block : List Nat) : List Nat :=
  (scheduleGo 48 (Array.mk (bytesToWords block))).toList

/-- One compression round. -/
def sha256Round (st : Nat × Nat × Nat × Nat × Nat × Nat × Nat × Nat) (kw : Nat × Nat) :
    Nat × Nat × Nat × Nat × Nat × Nat × Nat × Nat :=
  let (a, b, c, d, e, f, g, h) := st
  let (k, w) := kw
  let ch := (e &&& f) ^^^ ((w32 - 1 - e) &&& g)
  let temp1 := add32 (add32 (add32 h (sigBig1 e)) (add32 ch k)) w
  let maj := (a &&& b) ^^^ (a &&& c) ^^^ (b &&& c)
  let temp2 := add32 (sigBig0 a) maj
  (add32 temp1 temp2, a, b, c, add32 d temp1, e, f, g)

/-- Compress one 64-byte block into the running hash state. -/
def sha256Block (h : List Nat) (block : List Nat) : List Nat :=
  let ws := sha256Schedule block
  let init := (h.getD 0 0, h.getD 1 0, h.getD 2 0, h.getD 3 0,
               h.getD 4 0, h.getD 5 0, h.getD 6 0, h.getD 7 0)
  let (a, b, c, d, e, f, g, h8) := (sha256K.zip ws).foldl sha256Round init
  [add32 (h.getD 0 0) a, add32 (h.getD 1 0) b, add32 (h.getD 2 0) c, add32 (h.getD 3 0) d,
   add32 (h.getD 4 0) e, add32 (h.getD 5 0) f, add32 (h.getD 6 0) g, add32 (h.getD 7 0) h8]

/-- Split the padded message into 64-byte blocks; the fuel argument is an
upper bound on the number of blocks. -/
def chunk64Go : Nat → List Nat → List (List Nat)
  | 0, _ => []
  | _, [] => []
  | fuel + 1, l => l.take 64 :: chunk64Go fuel (l.drop 64)

def chunk64 (l : List Nat) : List (List Nat) := chunk64Go l.length l

/-- The SHA-256 digest (32 bytes) of a byte sequence. -/
def sha256Bytes (msg : List Nat) : List Nat :=
  let finalH := (chunk64 (sha256Pad msg)).foldl sha256Block sha256H0
  finalH.flatMap (fun word => [word / 16777216 % 256, word / 65536 % 256, word / 256 % 256, word % 256])

/-- UTF-8 encoding of one code point. -/
def utf8EncodeChar (c : Char) : List Nat :=
  let n := c.toNat
  if n < 128 then [n]
  else if n < 2048 then [192 + n / 64, 128 + n % 64]
  else if n < 65536 then [224 + n / 4096, 128 + n / 64 % 64, 128 + n % 64]
  else [240 + n / 262144, 128 + n / 4096 % 64, 128 + n / 64 % 64, 128 + n % 64]

/-- UTF-8 bytes of a string, the `ordered.encode()` of the source. -/
def strToBytes (s : String) : List Nat :=
  s.data.flatMap utf8EncodeChar

/-- Lower-case hex digest of the SHA-256 of a string, the embedding of
`hashlib.sha256(ordered.encode()).hexdigest()`. -/
def sha256Hex (s : String) : String :=
  String.join ((sha256Bytes (strToBytes s)).map
    (fun b => String.mk [hexDigit (b / 16), hexDigit (b % 16)]))

/-! ## The `Set` chain of `src/palimpzest/sets.py` (claim C1)

The schema (`json_schema()` output), the serialized source when it is a
raw `DataSource`, the serialized filter, aggregate and group-by, and the
cardinality enum value are opaque JSON payloads produced by collaborators
outside the embedded core; the `Set` node stores them as `Json`. -/

/-- Python `repr` of a string (used by `serialize` for the `desc` field):
single quotes unless the text contains a single quote and no double quote,
with backslash escapes for the quote character, backslashes and common
control characters. -/
def pyReprCharEscape (quote : Char) (c : Char) : String :=
  let n := c.toNat
  if c = quote then "\\" ++ String.singleton c
  else if n = 92 then "\\\\"
  else if n = 10 then "\\n"
  else if n = 13 then "\\r"
  else if n = 9 then "\\t"
  else if n < 32 ∨ n = 127 then "\\x" ++ String.mk [hexDigit (n / 16), hexDigit (n % 16)]
  else String.singleton c

def pyReprStr (s : String) : String :=
  let squote := Char.ofNat 39
  let dquote := Char.ofNat 34
  let q := if s.data.contains squote ∧ ¬ s.data.contains dquote then dquote else squote
  String.singleton q ++ String.join (s.data.map (pyReprCharEscape q)) ++ String.singleton q

/-- Python `repr` of an optional string, `repr(None)` being `None`. -/
def pyReprOptStr : Option String → String
  | none => "None"
  | some s => pyReprStr s

mutual
/-- A `Set` node of `sets.py`: schema, source and the operation
parameters passed to `Set.__init__`, in the order of the constructor.
`desc` and `fnid` are optional strings, `udf` holds `str(self._udf)`
when a UDF is present, and `filter`, `aggFunc` and `groupBy` hold the
opaque `serialize()` output of those collaborators. `cardinality`,
`imageConversion` and `limit` hold the JSON value of the corresponding
python field. -/
inductive PZSet where
  | mk (schema : Json) (source : SetSource) (desc : Option String)
       (filter : Option Json) (udf : Option String) (aggFunc : Option Json)
       (fnid : Option String) (cardinality : Json) (imageConversion : Json)
       (limit : Json) (groupBy : Option Json)

/-- The source of a `Set`: either another `Set` or a raw `DataSource`
whose `serialize()` output is the given JSON value. -/
inductive SetSource where
  | dataSource (ser : Json)
  | ofSet (s : PZSet)
end

/-- Modelled from the spec: `palimpzest.constants.MAX_ID_CHARS` is not
under the source tree; the spec fixes only that the identifier is the
SHA-256 hex digest truncated to a fixed length. -/
def MAX_ID_CHARS : Nat := 10

def jsonOfOpt : Option Json → Json
  | none => Json.null
  | some j => j

def jsonOfOptStr : Option String → Json
  | none => Json.null
  | some s => Json.str s

mutual
/-- The entry list of the dictionary built by `Set.serialize`, in the
literal key order of the source. -/
def serializeEntries : PZSet → List (String × Json)
  | .mk schema source desc fil udf aggFunc fnid cardinality imageConversion limit groupBy =>
    [("version", Json.num "0.1"),
     ("schema", schema),
     ("source", sourceSerialize source),
     ("desc", Json.str (pyReprOptStr desc)),
     ("filter", jsonOfOpt fil),
     ("udf", jsonOfOptStr udf),
     ("agg_func", jsonOfOpt aggFunc),
     ("fnid", jsonOfOptStr fnid),
     ("cardinality", cardinality),
     ("image_conversion", imageConversion),
     ("limit", limit),
     ("group_by", jsonOfOpt groupBy)]

/-- Dispatch of `self._source.serialize()`. -/
def sourceSerialize : SetSource → Json
  | .dataSource ser => ser
  | .ofSet s => Json.obj (serializeEntries s)
end

/-- The dictionary returned by `Set.serialize`. -/
def PZSet.serialize (s : PZSet) : Json := Json.obj (serializeEntries s)

/-- The identifier of a JSON dictionary given by its entry list:
`hashlib.sha256(json.dumps(d, sort_keys=True).encode()).hexdigest()[:MAX_ID_CHARS]`. -/
def uidOfEntries (d : List (String × Json)) : String :=
  (sha256Hex (dumpsSorted (Json.obj d))).take MAX_ID_CHARS

/-- The embedding of `Set.universal_identifier`. -/
def universal_identifier (s : PZSet) : String :=
  uidOfEntries (serializeEntries s)

/-! ## The `Set` chain of `src/palimpzest/sets/sets.py` (claim C3)

Element classes (`self._basicElt`) are compared with python `==`, which
for class objects is identity; the model names each element class by an
identity string.  `jsonSchemaOf` maps an element class to the output of
its `jsonSchema()` method and `reprOfElt` to its `repr` text (both live
in the `elements` module, outside the embedded core). -/

/-- A `Set` of the older `sets/sets.py`: either a `ConcreteDataset`
(no input) or a derived `Set` with an input, a description and a filter
list (each filter abstracted by its `serialize()` output). -/
inductive PZSetOld where
  | concreteDataset (basicElt : String) (uniqName : String) (desc : Option String)
  | derived (basicElt : String) (input : PZSetOld) (desc : Option String)
            (filters : List Json)

/-- The `_basicElt` field of either kind of `Set`. -/
def basicEltOf : PZSetOld → String
  | .concreteDataset e _ _ => e
  | .derived e _ _ _ => e

/-- The `serialize` of the older `Set` (derived case) and of
`ConcreteDataset`, in the literal key order of the source. -/
def serializeOld (jsonSchemaOf : String → Json) (reprOfElt : String → String) :
    PZSetOld → Json
  | .concreteDataset e uniqName desc =>
      Json.obj [("version", Json.num "0.1"),
                ("desc", Json.str (pyReprOptStr desc)),
                ("basicElt", Json.str (reprOfElt e)),
                ("uniqName", Json.str uniqName)]
  | .derived e input desc filters =>
      Json.obj [("version", Json.num "0.1"),
                ("desc", jsonOfOptStr desc),
                ("basicElt", jsonSchemaOf e),
                ("filters", Json.arr filters),
                ("input", serializeOld jsonSchemaOf reprOfElt input)]

/-- The embedding of the older `Set.universalIdentifier` (full hex digest,
no truncation). -/
def universalIdentifierOld (jsonSchemaOf : String → Json) (reprOfElt : String → String)
    (s : PZSetOld) : String :=
  sha256Hex (dumpsSorted (serializeOld jsonSchemaOf reprOfElt s))

/-- A logical operator tree as built by `getLogicalTree`. -/
inductive LogicalOp where
  | baseScan (elt : String) (uniqName : String)
  | cacheScan (elt : String) (uid : String)
  | convertScan (elt : String) (src : LogicalOp)
  | filteredScan (elt : String) (src : LogicalOp) (filters : List Json)
                 (targetCacheId : String)

/-- The embedding of `Set.getLogicalTree` / `ConcreteDataset.getLogicalTree`
of `sets/sets.py`, with the branch conditions exactly as written in the
source (`len(self._filters) >= 0` included) and the cache membership test
`DataDirectory().hasCachedAnswer(uid)` supplied as the `cached` oracle. -/
def getLogicalTree (jsonSchemaOf : String → Json) (reprOfElt : String → String)
    (cached : String → Bool) : PZSetOld → LogicalOp
  | .concreteDataset e uniqName _ => .baseScan e uniqName
  | .derived e input desc filters =>
      let uid := universalIdentifierOld jsonSchemaOf reprOfElt (.derived e input desc filters)
      if cached uid then .cacheScan e uid
      else if decide (filters.length ≥ 0) && !(e == basicEltOf input) then
        .filteredScan e (.convertScan e (getLogicalTree jsonSchemaOf reprOfElt cached input))
          filters uid
      else if decide (filters.length = 0) && !(e == basicEltOf input) then
        .convertScan e (getLogicalTree jsonSchemaOf reprOfElt cached input)
      else if decide (filters.length ≥ 0) && (e == basicEltOf input) then
        .filteredScan e (getLogicalTree jsonSchemaOf reprOfElt cached input) filters uid
      else getLogicalTree jsonSchemaOf reprOfElt cached input

/-! ## The `_DataDirectory` stream cache of `datasources/datadirectory.py`
(claims C2, C5, C8)

Python dictionaries are modelled by association lists with
update-or-append insertion; `closeCache` pickles the buffered list to a
file and `getCachedResult` unpickles it, which round-trips, so the model
stores the record list itself where the source stores a file name. -/

/-- Lookup in a python-dictionary association list. -/
def alookup {β : Type} (k : String) : List (String × β) → Option β
  | [] => none
  | (k2, v) :: rest => if k2 = k then some v else alookup k rest

/-- Dictionary assignment `d[k] = v`: replace the entry or append it. -/
def ainsert {β : Type} (k : String) (v : β) : List (String × β) → List (String × β)
  | [] => [(k, v)]
  | (k2, v2) :: rest => if k2 = k then (k, v) :: rest else (k2, v2) :: ainsert k v rest

/-- Dictionary deletion `del d[k]`. -/
def aerase {β : Type} (k : String) : List (String × β) → List (String × β)
  | [] => []
  | (k2, v2) :: rest => if k2 = k then rest else (k2, v2) :: aerase k rest

/-- The cache state of `_DataDirectory`: `cache` holds the sealed entries
(`self._cache`, keyed file contents) and `tempCache` the claimed,
still-appending buffers (`self._tempCache`). -/
structure DataDir (α : Type) where
  cache : List (String × List α)
  tempCache : List (String × List α)

/-- The embedding of `_DataDirectory.hasCachedAnswer`. -/
def hasCachedAnswer {α : Type} (d : DataDir α) (uniqName : String) : Bool :=
  (alookup uniqName d.cache).isSome

/-- The embedding of `_DataDirectory.getCachedResult` (returns the sealed
record sequence, or python `None` when the key is absent). -/
def getCachedResult {α : Type} (d : DataDir α) (uniqName : String) : Option (List α) :=
  alookup uniqName d.cache

/-- The embedding of `_DataDirectory.openCache`: claim the key when it is
in neither map, returning the python return value and the new state. -/
def openCache {α : Type} (d : DataDir α) (cacheId : String) : Bool × DataDir α :=
  if (alookup cacheId d.cache).isNone && (alookup cacheId d.tempCache).isNone then
    (true, { d with tempCache := ainsert cacheId [] d.tempCache })
  else (false, d)

/-- The embedding of `_DataDirectory.appendCache`; `none` is the python
`KeyError` raised when the key has no temporary buffer. -/
def appendCache {α : Type} (d : DataDir α) (cacheId : String) (x : α) :
    Option (DataDir α) :=
  match alookup cacheId d.tempCache with
  | none => none
  | some buf => some { d with tempCache := ainsert cacheId (buf ++ [x]) d.tempCache }

/-- The embedding of `_DataDirectory.closeCache`: seal the temporary
buffer into the persistent cache; `none` is the python `KeyError` raised
when the key has no temporary buffer. -/
def closeCache {α : Type} (d : DataDir α) (cacheId : String) : Option (DataDir α) :=
  match alookup cacheId d.tempCache with
  | none => none
  | some buf =>
      some { cache := ainsert cacheId buf d.cache, tempCache := aerase cacheId d.tempCache }

/-- A key is claimed (appending) or sealed. -/
def claimedOrSealed {α : Type} (d : DataDir α) (k : String) : Bool :=
  (alookup k d.tempCache).isSome || (alookup k d.cache).isSome

/-- One lifecycle operation of the stream cache. -/
inductive CacheStep {α : Type} : DataDir α → DataDir α → Prop where
  | openStep (d : DataDir α) (k : String) : CacheStep d (openCache d k).2
  | appendStep (d : DataDir α) (k : String) (x : α) (d2 : DataDir α)
      (h : appendCache d k x = some d2) : CacheStep d d2
  | closeStep (d : DataDir α) (k : String) (d2 : DataDir α)
      (h : closeCache d k = some d2) : CacheStep d d2

/-- Append a list of records one at a time (the loop of claim C8). -/
def appendMany {α : Type} (d : DataDir α) (k : String) : List α → Option (DataDir α)
  | [] => some d
  | x :: xs =>
      match appendCache d k x with
      | none => none
      | some d2 => appendMany d2 k xs

/-! ## Physical operators of `operators/physical.py` (claims C4, C5) -/

/-- The cost estimate dictionary returned by `estimateCost`.  Python
floats are modelled by rationals (all the arithmetic of the estimator is
exact on the constants involved). -/
structure CostEstimate where
  cardinality : ℚ
  timePerElement : ℚ
  costPerElement : ℚ
  startupTime : ℚ
  startupCost : ℚ
  bytesReadLocally : ℚ
  bytesReadRemotely : ℚ

/-- Module constant: assumed seconds per record for LLM conversion. -/
def LOCAL_LLM_CONVERSION_TIME_PER_RECORD : ℚ := 10

/-- Module constant: assumed seconds per record for LLM boolean filter. -/
def LOCAL_LLM_FILTER_TIME_PER_RECORD : ℚ := 5

/-- The embedding of `InduceFromCandidateOp.estimateCost`, a pure function
of the estimate returned by `self.source.estimateCost()`. -/
def induceEstimateCost (inputCostEstimates : CostEstimate) : CostEstimate :=
  let selectivity : ℚ := 1
  { cardinality := selectivity * inputCostEstimates.cardinality
    timePerElement := LOCAL_LLM_CONVERSION_TIME_PER_RECORD + inputCostEstimates.timePerElement
    costPerElement := inputCostEstimates.costPerElement
    startupTime := inputCostEstimates.startupTime
    startupCost := inputCostEstimates.startupCost
    bytesReadLocally := inputCostEstimates.bytesReadLocally
    bytesReadRemotely := inputCostEstimates.bytesReadRemotely }

/-- The embedding of `FilterCandidateOp.estimateCost`. -/
def filterEstimateCost (inputCostEstimates : CostEstimate) : CostEstimate :=
  let selectivity : ℚ := 1
  { cardinality := selectivity * inputCostEstimates.cardinality
    timePerElement := LOCAL_LLM_FILTER_TIME_PER_RECORD + inputCostEstimates.timePerElement
    costPerElement := inputCostEstimates.costPerElement
    startupTime := inputCostEstimates.startupTime
    startupCost := inputCostEstimates.startupCost
    bytesReadLocally := inputCostEstimates.bytesReadLocally
    bytesReadRemotely := inputCostEstimates.bytesReadRemotely }

/-- Run the body of `FilterCandidateOp.__iter__` to exhaustion: every
source record passing `_passesFilters` (abstracted by the `passes`
predicate, since the solver that synthesizes it is an external
collaborator) is yielded, the claim winner also appends it to the
temporary buffer, and after the loop `closeCache` runs unconditionally,
exactly as in the source.  The result is the yielded record list together
with the final cache state; `none` as the final state is a python
`KeyError` escaping from the generator at exhaustion. -/
def filterIterGo {α : Type} (passes : α → Bool) (shouldCache : Bool) (cacheId : String) :
    List α → DataDir α → List α × Option (DataDir α)
  | [], d => ([], closeCache d cacheId)
  | x :: xs, d =>
      if passes x then
        if shouldCache then
          match appendCache d cacheId x with
          | none => ([], none)
          | some d2 =>
              let r := filterIterGo passes shouldCache cacheId xs d2
              (x :: r.1, r.2)
        else
          let r := filterIterGo passes shouldCache cacheId xs d
          (x :: r.1, r.2)
      else filterIterGo passes shouldCache cacheId xs d

/-- The embedding of `FilterCandidateOp.__iter__` followed by a full
consumption of the returned generator: `openCache` decides the claim,
then the filtering loop runs. -/
def filterIterRun {α : Type} (passes : α → Bool) (cacheId : String)
    (source : List α) (d : DataDir α) : List α × Option (DataDir α) :=
  let r := openCache d cacheId
  filterIterGo passes r.1 cacheId source r.2

/-! ## The code-synthesis convert operator of `strategies/code_synthesis.py`
(claims C6, C7, C9) and the bonded convert of `strategies/bonded_query.py`
(claim C7)

Records, field values and exemplars are opaque tokens.  The completion
service, the synthesized-code executor and the record plumbing of the
`convert` module are external collaborators supplied as oracles. -/

abbrev FieldName := String
abbrev Value := String
abbrev Candidate := String
abbrev Exemplar := String
abbrev CodeEnsemble := List (String × String)

/-- Modelled from the spec: the artifact cache behind
`DataDirectory().getCacheService()` (the `datamanager` module is not under
the source tree).  Per the external-interface section it is a key-value
store with `get(namespace, id)` / `put(namespace, id, value)`; a `put`
overwrites and a `get` returns the latest value.  The two namespaces used
by the operator are kept as two maps. -/
structure ArtifactCache where
  codeExemplars : List (String × List Exemplar)
  codeEnsembles : List (String × CodeEnsemble)

def emptyArtifactCache : ArtifactCache := { codeExemplars := [], codeEnsembles := [] }

def getCachedExemplars (ac : ArtifactCache) (cacheId : String) : Option (List Exemplar) :=
  alookup cacheId ac.codeExemplars

def putCachedExemplars (ac : ArtifactCache) (cacheId : String) (v : List Exemplar) :
    ArtifactCache :=
  { ac with codeExemplars := ainsert cacheId v ac.codeExemplars }

def getCachedEnsemble (ac : ArtifactCache) (cacheId : String) : Option CodeEnsemble :=
  alookup cacheId ac.codeEnsembles

def putCachedEnsemble (ac : ArtifactCache) (cacheId : String) (v : CodeEnsemble) :
    ArtifactCache :=
  { ac with codeEnsembles := ainsert cacheId v ac.codeEnsembles }

/-- The code-synthesis tactic (`CodingStrategy` of the source). -/
inductive CodingStrategy where
  | noneStrategy
  | single
  | exampleEnsemble
  | adviceEnsemble
  | adviceEnsembleWithValidation
deriving DecidableEq

/-- The mutable optimization state of `LLMConvertCodeSynthesis`. -/
structure CodeSynthState where
  exemplars : List Exemplar
  codeSynthesized : Bool
  fieldToCodeEnsemble : List (FieldName × CodeEnsemble)

/-- The embedding of `LLMConvertCodeSynthesis.__init__` with
`cache_across_plans=True`: read back any cached exemplar list (kept when
non-empty), no code yet. -/
def codeSynthInit (ac : ArtifactCache) (opId : String) : CodeSynthState :=
  let exemplars :=
    match getCachedExemplars ac opId with
    | some l => if l.length > 0 then l else []
    | none => []
  { exemplars := exemplars, codeSynthesized := false, fieldToCodeEnsemble := [] }

/-- The default of the `num_exemplars` parameter of `_shouldSynthesize`
(the `__call__` site passes no arguments). -/
def numExemplarsDefault : Nat := 1

/-- The default of the `code_regenerate_frequency` parameter. -/
def codeRegenerateFrequencyDefault : Nat := 200

/-- The `_shouldSynthesize` of each tactic, with the call-site defaults
applied, exactly as the subclasses define it. -/
def shouldSynthesize : CodingStrategy → CodeSynthState → Bool
  | .noneStrategy, _ => false
  | .single, st => !st.codeSynthesized && decide (st.exemplars.length ≥ numExemplarsDefault)
  | .exampleEnsemble, st =>
      if st.exemplars.length ≤ numExemplarsDefault then false else !st.codeSynthesized
  | .adviceEnsemble, _ => false
  | .adviceEnsembleWithValidation, st =>
      st.exemplars.length % codeRegenerateFrequencyDefault == 0

/-- External collaborators of one `__call__`:
`bondedNewExemplars` gives the `(input, output)` exemplar pairs harvested
from the bonded completion-service call on a candidate; `synthCode` is
`_synthesize_field_code` (a completion-service call prompted with the
current exemplars); `execEnsemble` is `generators.codeEnsembleExecution`
(`none` when every function of the ensemble fails or returns `None`);
`conventional` is the conventional single-field completion-service query,
returning the per-field answer list. -/
structure ConvertOracles where
  bondedNewExemplars : Candidate → List Exemplar
  synthCode : FieldName → List Exemplar → CodeEnsemble
  execEnsemble : FieldName → CodeEnsemble → Candidate → Option Value
  conventional : FieldName → Candidate → List Value

/-- What one `__call__` did. -/
inductive CallOutcome where
  | bonded (newExemplars : List Exemplar)
  | ranCode (fieldValues : List (FieldName × Value))
  | pyError (msg : String)
deriving DecidableEq

/-- The result of one `__call__`: its outcome, the successor operator
state, the successor artifact cache, and whether this call synthesized
code. -/
structure CallResult where
  outcome : CallOutcome
  state : CodeSynthState
  artifacts : ArtifactCache
  synthesizedNow : Bool

/-- The embedding of `_fetch_cached_code`: collect the cached ensemble of
every requested field and return the map only when every field has one. -/
def fetchCachedCode (ac : ArtifactCache) (opId : String) (fields : List FieldName) :
    List (FieldName × CodeEnsemble) :=
  let found := fields.filterMap
    (fun f => (getCachedEnsemble ac (opId ++ "_" ++ f)).map (fun ce => (f, ce)))
  if fields.all (fun f => (alookup f found).isSome) then found else []

/-- The embedding of `synthesize_code_ensemble` (with
`cache_across_plans=True`): synthesize per field and put each ensemble in
the artifact cache under `op_id_field`. -/
def synthesizeCodeEnsemble (oracles : ConvertOracles) (opId : String)
    (fields : List FieldName) (st : CodeSynthState) (ac : ArtifactCache) :
    List (FieldName × CodeEnsemble) × ArtifactCache :=
  fields.foldl
    (fun acc f =>
      let ce := oracles.synthCode f st.exemplars
      (acc.1 ++ [(f, ce)], putCachedEnsemble acc.2 (opId ++ "_" ++ f) ce))
    ([], ac)

/-- The embedding of `_bonded_query_fallback` (with
`cache_across_plans=True`): harvest the exemplars of this candidate,
extend the in-memory list, and `putCachedData` — the source passes the
fresh batch `exemplars`, not the accumulated `self.exemplars`. -/
def bondedQueryFallback (oracles : ConvertOracles) (opId : String)
    (cand : Candidate) (st : CodeSynthState) (ac : ArtifactCache) : CallResult :=
  let newExemplars := oracles.bondedNewExemplars cand
  { outcome := .bonded newExemplars
    state := { st with exemplars := st.exemplars ++ newExemplars }
    artifacts := putCachedExemplars ac opId newExemplars
    synthesizedNow := false }

/-- Execute the synthesized ensemble field by field, falling back to the
conventional single-field query when the ensemble yields nothing; `none`
is the python `IndexError` of `json_answers[field_name][0]` when the
conventional answer list is empty. -/
def runFields (oracles : ConvertOracles) (cand : Candidate)
    (f2c : List (FieldName × CodeEnsemble)) : List FieldName → Option (List (FieldName × Value))
  | [] => some []
  | f :: fs =>
      let ce := (alookup f f2c).getD []
      let answer :=
        match oracles.execEnsemble f ce cand with
        | some v => some v
        | none => (oracles.conventional f cand).head?
      match answer, runFields oracles cand f2c fs with
      | some v, some rest => some ((f, v) :: rest)
      | _, _ => none

/-- The tail of `LLMConvertCodeSynthesis.__call__`: if no code ensemble is
at hand, take the bonded-query fallback, else run the synthesized code
(falling back per field to the conventional query). -/
def llmConvertAfterCode (oracles : ConvertOracles) (opId : String)
    (fields : List FieldName) (cand : Candidate) (st1 : CodeSynthState)
    (ac1 : ArtifactCache) (synthedNow : Bool) : CallResult :=
  if st1.fieldToCodeEnsemble.isEmpty then
    let r := bondedQueryFallback oracles opId cand st1 ac1
    { r with synthesizedNow := synthedNow }
  else
    match runFields oracles cand st1.fieldToCodeEnsemble fields with
    | some fieldValues =>
        { outcome := .ranCode fieldValues, state := st1, artifacts := ac1,
          synthesizedNow := synthedNow }
    | none =>
        { outcome := .pyError "IndexError", state := st1, artifacts := ac1,
          synthesizedNow := synthedNow }

/-- The embedding of `LLMConvertCodeSynthesis.__call__` for one candidate
record (with `cache_across_plans=True`).  The advice-ensemble-with-
validation tactic reaches `_synthesize_field_code`, which raises
`Exception("not implemented yet")`, whenever it decides to synthesize for
a non-empty field list. -/
def llmConvertCall (tactic : CodingStrategy) (oracles : ConvertOracles) (opId : String)
    (fields : List FieldName) (cand : Candidate) (st : CodeSynthState) (ac : ArtifactCache) :
    CallResult :=
  if shouldSynthesize tactic st then
    if tactic = .adviceEnsembleWithValidation && !fields.isEmpty then
      { outcome := .pyError "not implemented yet", state := st, artifacts := ac,
        synthesizedNow := false }
    else
      let r := synthesizeCodeEnsemble oracles opId fields st ac
      let st1 := { st with fieldToCodeEnsemble := r.1, codeSynthesized := true }
      llmConvertAfterCode oracles opId fields cand st1 r.2 true
  else
    let st1 := { st with fieldToCodeEnsemble := fetchCachedCode ac opId fields }
    llmConvertAfterCode oracles opId fields cand st1 ac false

/-- Run `__call__` over a stream of candidates. -/
def runCalls (tactic : CodingStrategy) (oracles : ConvertOracles) (opId : String)
    (fields : List FieldName) : List Candidate → CodeSynthState → ArtifactCache →
    List CallResult
  | [], _, _ => []
  | c :: cs, st, ac =>
      let r := llmConvertCall tactic oracles opId fields c st ac
      r :: runCalls tactic oracles opId fields cs r.state r.artifacts

/-- Number of calls of a run that synthesized code. -/
def synthCount (rs : List CallResult) : Nat :=
  (rs.filter (fun r => r.synthesizedNow)).length

/-- The embedding of `LLMBondedQueryConvert.convert` of
`strategies/bonded_query.py` after its completion-service call:
`parseAnswer` is the per-field answer table produced by
`_dspy_generate_fields` and `parse_answer` (collaborators in the
`generators` and `convert` modules), and every field whose answer list is
empty is replaced by the conventional single-field query result. -/
def bondedConvert (parseAnswer : List (FieldName × List Value))
    (conventional : FieldName → List Value) : List (FieldName × List Value) :=
  parseAnswer.map (fun fv => if fv.2.isEmpty then (fv.1, conventional fv.1) else fv)

/-! ## The record guard of `elements/records.py` (claim C10) -/

/-- The test `key.startswith("_")`, written by direct inspection of the
character list (python compares the first character). -/
def pyStartsUnderscore (key : String) : Bool :=
  match key.data with
  | [] => false
  | c :: _ => c == Char.ofNat 95

/-- The embedding of `DataRecord.__setattr__`: `schemaHas` is
`hasattr(self._schema, key)` (the schema class is declared in the external
`elements` module); a key that does not start with an underscore and is
not on the schema raises, anything else updates the record dictionary.
`none` is the raised exception. -/
def recordSetattr (schemaHas : String → Bool) (r : List (String × Value))
    (key : String) (v : Value) : Option (List (String × Value)) :=
  if !pyStartsUnderscore key && !schemaHas key then none
  else some (ainsert key v r)

/-- Apply a sequence of attribute assignments, stopping at the first
raised exception. -/
def recordSetattrs (schemaHas : String → Bool) :
    List (String × Value) → List (String × Value) → Option (List (String × Value))
  | [], r => some r
  | (k, v) :: rest, r =>
      match recordSetattr schemaHas r k v with
      | none => none
      | some r2 => recordSetattrs schemaHas rest r2

/-- Every public attribute of the record dictionary is declared by the
schema. -/
def publicAttrsDeclared (schemaHas : String → Bool) (r : List (String × Value)) : Prop :=
  ∀ kv ∈ r, pyStartsUnderscore kv.1 = false → schemaHas kv.1 = true

/-! ## Helper lemmas -/

theorem alookup_ainsert {β : Type} (k k2 : String) (v : β) (m : List (String × β)) :
    alookup k (ainsert k2 v m) = if k2 = k then some v else alookup k m := by
  induction m with
  | nil => simp [ainsert, alookup]
  | cons hd tl ih =>
      obtain ⟨k3, v3⟩ := hd
      by_cases h32 : k3 = k2
      · subst h32
        by_cases h3k : k3 = k <;> simp [ainsert, alookup, h3k]
      · by_cases h3k : k3 = k
        · subst h3k
          have : ¬ k2 = k3 := fun h => h32 h.symm
          simp [ainsert, alookup, h32, this]
        · simp [ainsert, alookup, h32, h3k, ih]

theorem alookup_aerase {β : Type} (k k2 : String) (m : List (String × β)) (hne : k2 ≠ k) :
    alookup k (aerase k2 m) = alookup k m := by
  induction m with
  | nil => simp [aerase]
  | cons hd tl ih =>
      obtain ⟨k3, v3⟩ := hd
      by_cases h32 : k3 = k2
      · subst h32
        have : ¬ k3 = k := fun h => hne (h ▸ rfl)
        simp [aerase, alookup, this]
      · simp [aerase, alookup, h32, ih]

theorem mem_ainsert {β : Type} (kv : String × β) (k : String) (v : β)
    (m : List (String × β)) (h : kv ∈ ainsert k v m) : kv = (k, v) ∨ kv ∈ m := by
  induction m with
  | nil => simpa [ainsert] using h
  | cons hd tl ih =>
      obtain ⟨k3, v3⟩ := hd
      by_cases h3 : k3 = k
      · subst h3
        simp only [ainsert, if_pos rfl] at h
        rcases List.mem_cons.mp h with h | h
        · exact Or.inl h
        · exact Or.inr (List.mem_cons_of_mem _ h)
      · simp only [ainsert, if_neg h3] at h
        rcases List.mem_cons.mp h with h | h
        · exact Or.inr (h ▸ List.mem_cons_self _ _)
        · rcases ih h with h | h
          · exact Or.inl h
          · exact Or.inr (List.mem_cons_of_mem _ h)

/-! ## Claim theorems -/

/-- C4: for every filter and convert physical operator, `estimateCost`
composes the estimate of the source with the marginal contribution of the
node: the cardinality is the node selectivity (hard-wired `1.0`) times the
source cardinality, the per-element time is the per-record constant of
the node plus the per-element time of the source, the per-element cost
and the two byte counters compose additively with a zero marginal
contribution of the node, and the startup time and cost propagate
unchanged (these nodes incur no setup). -/
theorem estimateCost_composes_source_estimate (inp : CostEstimate) :
    (induceEstimateCost inp).cardinality = 1 * inp.cardinality ∧
    (induceEstimateCost inp).timePerElement
      = LOCAL_LLM_CONVERSION_TIME_PER_RECORD + inp.timePerElement ∧
    (induceEstimateCost inp).costPerElement = inp.costPerElement + 0 ∧
    (induceEstimateCost inp).bytesReadLocally = inp.bytesReadLocally + 0 ∧
    (induceEstimateCost inp).bytesReadRemotely = inp.bytesReadRemotely + 0 ∧
    (induceEstimateCost inp).startupTime = inp.startupTime ∧
    (induceEstimateCost inp).startupCost = inp.startupCost ∧
    (filterEstimateCost inp).cardinality = 1 * inp.cardinality ∧
    (filterEstimateCost inp).timePerElement
      = LOCAL_LLM_FILTER_TIME_PER_RECORD + inp.timePerElement ∧
    (filterEstimateCost inp).costPerElement = inp.costPerElement + 0 ∧
    (filterEstimateCost inp).bytesReadLocally = inp.bytesReadLocally + 0 ∧
    (filterEstimateCost inp).bytesReadRemotely = inp.bytesReadRemotely + 0 ∧
    (filterEstimateCost inp).startupTime = inp.startupTime ∧
    (filterEstimateCost inp).startupCost = inp.startupCost := by
  refine ⟨rfl, rfl, (add_zero _).symm, (add_zero _).symm, (add_zero _).symm, rfl, rfl,
          rfl, rfl, (add_zero _).symm, (add_zero _).symm, (add_zero _).symm, rfl, rfl⟩

/-- C10: `DataRecord.__setattr__` keeps the schema a closed attribute set:
assigning a public attribute not declared by the schema raises, a
successful assignment preserves the invariant that every public attribute
is schema-declared, and any record built from the empty attribute
dictionary by successful assignments satisfies the invariant. -/
theorem dataRecord_public_attrs_schema_declared (schemaHas : String → Bool) :
    (∀ (r : List (String × Value)) (key : String) (v : Value),
      pyStartsUnderscore key = false → schemaHas key = false →
      recordSetattr schemaHas r key v = none) ∧
    (∀ (r r2 : List (String × Value)) (key : String) (v : Value),
      publicAttrsDeclared schemaHas r →
      recordSetattr schemaHas r key v = some r2 →
      publicAttrsDeclared schemaHas r2) ∧
    (∀ (ops : List (String × Value)) (r : List (String × Value)),
      recordSetattrs schemaHas ops [] = some r →
      publicAttrsDeclared schemaHas r) := by
  have step : ∀ (r r2 : List (String × Value)) (key : String) (v : Value),
      publicAttrsDeclared schemaHas r →
      recordSetattr schemaHas r key v = some r2 →
      publicAttrsDeclared schemaHas r2 := by
    intro r r2 key v hinv hset
    unfold recordSetattr at hset
    by_cases hguard : (!pyStartsUnderscore key && !schemaHas key) = true
    · rw [if_pos hguard] at hset; exact absurd hset (by simp)
    · rw [if_neg hguard] at hset
      have hr2 : r2 = ainsert key v r := by injection hset with h; exact h.symm
      subst hr2
      intro kv hmem hpub
      rcases mem_ainsert kv key v r hmem with hkv | hkv
      · subst hkv
        simp only [Bool.and_eq_true, Bool.not_eq_true', not_and] at hguard
        cases h : schemaHas key with
        | false => exact absurd h (hguard hpub)
        | true => rfl
      · exact hinv kv hkv hpub
  refine ⟨?_, step, ?_⟩
  · intro r key v hkey hschema
    unfold recordSetattr
    rw [if_pos (by rw [hkey, hschema]; rfl)]
  · have gen : ∀ (ops : List (String × Value)) (r0 r : List (String × Value)),
        publicAttrsDeclared schemaHas r0 →
        recordSetattrs schemaHas ops r0 = some r →
        publicAttrsDeclared schemaHas r := by
      intro ops
      induction ops with
      | nil =>
          intro r0 r hinv hrun
          unfold recordSetattrs at hrun
          injection hrun with h; exact h ▸ hinv
      | cons hd tl ih =>
          intro r0 r hinv hrun
          obtain ⟨k, v⟩ := hd
          unfold recordSetattrs at hrun
          cases hset : recordSetattr schemaHas r0 k v with
          | none => rw [hset] at hrun; exact absurd hrun (by simp)
          | some r1 =>
              rw [hset] at hrun
              exact ih r1 r (step r0 r1 k v hinv hset) hrun
    intro ops r hrun
    exact gen ops [] r (by intro kv h; exact absurd h (List.not_mem_nil kv)) hrun

/-- Witness for C10: assigning the undeclared public attribute `author`
raises, and a record built by successful assignments (the underscore
attribute and the declared field `title`) has only schema-declared public
attributes. -/
theorem dataRecord_public_attrs_schema_declared_witness :
    recordSetattr (fun k => k == "title") [] "author" "y" = none ∧
    publicAttrsDeclared (fun k => k == "title") [("_schema", "s"), ("title", "x")] :=
  ⟨(dataRecord_public_attrs_schema_declared (fun k => k == "title")).1 [] "author" "y"
     (by decide) (by decide),
   (dataRecord_public_attrs_schema_declared (fun k => k == "title")).2.2
     [("_schema", "s"), ("title", "x")] [("_schema", "s"), ("title", "x")] (by decide)⟩

theorem lookups_none_of_claimedOrSealed_false {α : Type} (d : DataDir α) (k : String)
    (h : claimedOrSealed d k = false) :
    alookup k d.tempCache = none ∧ alookup k d.cache = none := by
  simp only [claimedOrSealed, Bool.or_eq_false_iff] at h
  constructor
  · cases htc : alookup k d.tempCache with
    | none => rfl
    | some v => rw [htc] at h; simp at h
  · cases hc : alookup k d.cache with
    | none => rfl
    | some v => rw [hc] at h; simp at h

/-- C2: the entry lifecycle of the stream cache is
unclaimed, then claimed/appending, then sealed.  An `openCache` on an
unclaimed key returns `True` and claims it; an `openCache` on a claimed or
sealed key returns `False` and changes nothing (a sealed entry is never
re-opened); being claimed-or-sealed is preserved by every lifecycle
operation, so every later `openCache` on the key returns `False`; and the
lookups `hasCachedAnswer` / `getCachedResult` do not see an entry that is
claimed but not yet sealed. -/
theorem cache_claim_exactly_once_sealed_visibility {α : Type} :
    (∀ (d : DataDir α) (k : String), claimedOrSealed d k = false →
      (openCache d k).1 = true ∧ claimedOrSealed (openCache d k).2 k = true) ∧
    (∀ (d : DataDir α) (k : String), claimedOrSealed d k = true →
      openCache d k = (false, d)) ∧
    (∀ (d d2 : DataDir α) (k : String), claimedOrSealed d k = true →
      CacheStep d d2 → claimedOrSealed d2 k = true) ∧
    (∀ (d : DataDir α) (k : String),
      (alookup k d.tempCache).isSome = true → (alookup k d.cache).isNone = true →
      hasCachedAnswer d k = false ∧ getCachedResult d k = none) := by
  refine ⟨?_, ?_, ?_, ?_⟩
  · intro d k hfresh
    obtain ⟨htc, hc⟩ := lookups_none_of_claimedOrSealed_false d k hfresh
    have hcond : ((alookup k d.cache).isNone && (alookup k d.tempCache).isNone) = true := by
      simp [htc, hc]
    constructor
    · simp [openCache, hcond]
    · simp [openCache, hcond, claimedOrSealed, alookup_ainsert]
  · intro d k hclaimed
    have hcond : ((alookup k d.cache).isNone && (alookup k d.tempCache).isNone) = false := by
      simp only [claimedOrSealed, Bool.or_eq_true] at hclaimed
      rcases hclaimed with h | h
      · cases htc : alookup k d.tempCache with
        | none => rw [htc] at h; simp at h
        | some v => simp [htc]
      · cases hc : alookup k d.cache with
        | none => rw [hc] at h; simp at h
        | some v => simp [hc]
    simp [openCache, hcond]
  · intro d d2 k hclaimed hstep
    cases hstep with
    | openStep k2 =>
        unfold openCache
        by_cases hcond : ((alookup k2 d.cache).isNone && (alookup k2 d.tempCache).isNone) = true
        · simp only [if_pos hcond]
          by_cases hk : k2 = k
          · subst hk; simp [claimedOrSealed, alookup_ainsert]
          · have hins : alookup k (ainsert k2 ([] : List α) d.tempCache)
                = alookup k d.tempCache := by rw [alookup_ainsert, if_neg hk]
            simpa [claimedOrSealed, hins] using hclaimed
        · simpa [if_neg hcond] using hclaimed
    | appendStep k2 x d2x hap =>
        unfold appendCache at hap
        cases hbuf : alookup k2 d.tempCache with
        | none => rw [hbuf] at hap; exact absurd hap (by simp)
        | some buf =>
            rw [hbuf] at hap
            injection hap with hap
            subst hap
            by_cases hk : k2 = k
            · subst hk; simp [claimedOrSealed, alookup_ainsert]
            · have hins : alookup k (ainsert k2 (buf ++ [x]) d.tempCache)
                  = alookup k d.tempCache := by rw [alookup_ainsert, if_neg hk]
              simpa [claimedOrSealed, hins] using hclaimed
    | closeStep k2 d2x hcl =>
        unfold closeCache at hcl
        cases hbuf : alookup k2 d.tempCache with
        | none => rw [hbuf] at hcl; exact absurd hcl (by simp)
        | some buf =>
            rw [hbuf] at hcl
            injection hcl with hcl
            subst hcl
            by_cases hk : k2 = k
            · subst hk; simp [claimedOrSealed, alookup_ainsert]
            · have hins : alookup k (ainsert k2 buf d.cache) = alookup k d.cache := by
                rw [alookup_ainsert, if_neg hk]
              have hera := alookup_aerase k k2 d.tempCache hk
              simpa [claimedOrSealed, hins, hera] using hclaimed
  · intro d k _ hnone
    simp only [Option.isNone_iff_eq_none] at hnone
    exact ⟨by simp [hasCachedAnswer, hnone], by simp [getCachedResult, hnone]⟩

/-- Witness for C2 at concrete states: a fresh key is claimed with return
value `True`; on a state where `K` is claimed and still appending, a second
`openCache` returns `False` and the lookups see nothing. -/
theorem cache_claim_exactly_once_sealed_visibility_witness :
    (openCache (⟨[], []⟩ : DataDir String) "K").1 = true ∧
    openCache (⟨[], [("K", ["r"])]⟩ : DataDir String) "K" = (false, ⟨[], [("K", ["r"])]⟩) ∧
    hasCachedAnswer (⟨[], [("K", ["r"])]⟩ : DataDir String) "K" = false ∧
    getCachedResult (⟨[], [("K", ["r"])]⟩ : DataDir String) "K" = none :=
  ⟨((cache_claim_exactly_once_sealed_visibility).1 ⟨[], []⟩ "K" (by decide)).1,
   (cache_claim_exactly_once_sealed_visibility).2.1 ⟨[], [("K", ["r"])]⟩ "K" (by decide),
   ((cache_claim_exactly_once_sealed_visibility).2.2.2 ⟨[], [("K", ["r"])]⟩ "K"
      (by decide) (by decide)).1,
   ((cache_claim_exactly_once_sealed_visibility).2.2.2 ⟨[], [("K", ["r"])]⟩ "K"
      (by decide) (by decide)).2⟩

theorem appendMany_tempCache {α : Type} (k : String) :
    ∀ (rs : List α) (d : DataDir α) (buf : List α),
      alookup k d.tempCache = some buf →
      ∃ d2, appendMany d k rs = some d2 ∧
        alookup k d2.tempCache = some (buf ++ rs) ∧ d2.cache = d.cache := by
  intro rs
  induction rs with
  | nil => intro d buf h; exact ⟨d, rfl, by simpa using h, rfl⟩
  | cons x xs ih =>
      intro d buf h
      have happ : appendCache d k x
          = some { d with tempCache := ainsert k (buf ++ [x]) d.tempCache } := by
        unfold appendCache; rw [h]
      have hlook : alookup k (ainsert k (buf ++ [x]) d.tempCache) = some (buf ++ [x]) := by
        rw [alookup_ainsert]; simp
      obtain ⟨d2, h1, h2, h3⟩ :=
        ih { d with tempCache := ainsert k (buf ++ [x]) d.tempCache } (buf ++ [x]) hlook
      refine ⟨d2, ?_, ?_, h3⟩
      · unfold appendMany; rw [happ]; exact h1
      · rw [h2]; simp

/-- C8: claiming an unclaimed key `K`, appending a record sequence in
order and sealing `K` succeeds, and a read of `K` then returns exactly the
appended records in the same order. -/
theorem cache_append_seal_read_roundtrip {α : Type} (d : DataDir α) (k : String)
    (rs : List α) (hfresh : claimedOrSealed d k = false) :
    ∃ d1 d2, appendMany (openCache d k).2 k rs = some d1 ∧
      closeCache d1 k = some d2 ∧
      getCachedResult d2 k = some rs ∧ hasCachedAnswer d2 k = true := by
  obtain ⟨htc, hc⟩ := lookups_none_of_claimedOrSealed_false d k hfresh
  have hcond : ((alookup k d.cache).isNone && (alookup k d.tempCache).isNone) = true := by
    simp [htc, hc]
  have hopen : (openCache d k).2 = { d with tempCache := ainsert k [] d.tempCache } := by
    simp [openCache, hcond]
  have hlook : alookup k (ainsert k ([] : List α) d.tempCache) = some [] := by
    rw [alookup_ainsert]; simp
  obtain ⟨d1, h1, h2, h3⟩ :=
    appendMany_tempCache k rs { d with tempCache := ainsert k [] d.tempCache } [] hlook
  refine ⟨d1, ⟨ainsert k rs d1.cache, aerase k d1.tempCache⟩, by rw [hopen]; simpa using h1,
    ?_, ?_, ?_⟩
  · unfold closeCache
    rw [show alookup k d1.tempCache = some rs by simpa using h2]
  · simp [getCachedResult, alookup_ainsert]
  · simp [hasCachedAnswer, alookup_ainsert]

/-- Witness for C8: two records appended under a fresh key are read back
in order after sealing. -/
theorem cache_append_seal_read_roundtrip_witness :
    ∃ d1 d2, appendMany (openCache (⟨[], []⟩ : DataDir String) "K").2 "K" ["a", "b"] = some d1 ∧
      closeCache d1 "K" = some d2 ∧
      getCachedResult d2 "K" = some ["a", "b"] ∧ hasCachedAnswer d2 "K" = true :=
  cache_append_seal_read_roundtrip ⟨[], []⟩ "K" ["a", "b"] (by decide)

/-- C5 (code bug): the filtering loop of `FilterCandidateOp.__iter__`
calls `closeCache` after exhaustion whether or not `openCache` granted the
claim.  On the state where the target key is already sealed, the loser
yields exactly the records passing the filter, in source order, but its
exhaustion step raises `KeyError` (final state `none`) instead of
completing without error; a claim winner on a fresh state yields the same
records and seals them. -/
theorem filter_iterator_loser_raises_on_close :
    filterIterRun (fun _ => true) "K" ["r1", "r2"]
      (⟨[("K", [])], []⟩ : DataDir String) = (["r1", "r2"], none) ∧
    filterIterRun (fun _ => true) "K" ["r1", "r2"] (⟨[], []⟩ : DataDir String)
      = (["r1", "r2"], some ⟨[("K", ["r1", "r2"])], []⟩) := by
  constructor <;> rfl

/-- C3 (code bug): a derived `Set` with no filters whose element type
equals the element type of its input is a no-op, but `getLogicalTree`
wraps the input tree in a `FilteredScan` with an empty filter list (the
`len(self._filters) >= 0` conditions are always true, so the folding
branch `return self._input.getLogicalTree()` is unreachable): the
returned tree is not the logical tree of the source. -/
theorem noop_convert_not_folded_into_source :
    getLogicalTree (fun _ => Json.null) (fun e => e) (fun _ => false)
      (.derived "E" (.concreteDataset "E" "testds" none) none [])
      = .filteredScan "E" (.baseScan "E" "testds") []
          (universalIdentifierOld (fun _ => Json.null) (fun e => e)
            (.derived "E" (.concreteDataset "E" "testds" none) none [])) ∧
    getLogicalTree (fun _ => Json.null) (fun e => e) (fun _ => false)
      (.derived "E" (.concreteDataset "E" "testds" none) none [])
      ≠ getLogicalTree (fun _ => Json.null) (fun e => e) (fun _ => false)
          (.concreteDataset "E" "testds" none) := by
  constructor
  · rfl
  · intro h
    rw [show getLogicalTree (fun _ => Json.null) (fun e => e) (fun _ => false)
          (.concreteDataset "E" "testds" none) = .baseScan "E" "testds" from rfl] at h
    rw [show getLogicalTree (fun _ => Json.null) (fun e => e) (fun _ => false)
          (.derived "E" (.concreteDataset "E" "testds" none) none [])
        = .filteredScan "E" (.baseScan "E" "testds") []
            (universalIdentifierOld (fun _ => Json.null) (fun e => e)
              (.derived "E" (.concreteDataset "E" "testds" none) none [])) from rfl] at h
    exact LogicalOp.noConfusion h

/-- Oracles for the concrete code-synthesis runs: the bonded call on the
first candidate harvests exemplar `ex1`, on any other candidate `ex2`. -/
def c9Oracles : ConvertOracles :=
  { bondedNewExemplars := fun c => if c == "cand1" then ["ex1"] else ["ex2"]
    synthCode := fun _ _ => [("fn_v0", "synthesized")]
    execEnsemble := fun _ _ _ => some "val"
    conventional := fun _ _ => ["val"] }

/-- First `__call__` of an advice-ensemble operator starting from an empty
artifact cache. -/
def c9Call1 : CallResult :=
  llmConvertCall .adviceEnsemble c9Oracles "op1" ["f"] "cand1"
    (codeSynthInit emptyArtifactCache "op1") emptyArtifactCache

/-- Second `__call__`, continuing from the state and cache after the first. -/
def c9Call2 : CallResult :=
  llmConvertCall .adviceEnsemble c9Oracles "op1" ["f"] "cand2"
    c9Call1.state c9Call1.artifacts

/-- C9 (code bug): after two successful bonded fallbacks the operator has
harvested `ex1` then `ex2` and holds both in memory, but the cache entry
under the operator id holds only the latest batch: `_bonded_query_fallback`
passes the fresh batch `exemplars` to `putCachedData` instead of the
accumulated `self.exemplars`, so the earlier exemplar is dropped from the
cache rather than appended to it. -/
theorem exemplar_cache_keeps_only_latest_batch :
    c9Call1.outcome = .bonded ["ex1"] ∧
    c9Call2.outcome = .bonded ["ex2"] ∧
    c9Call2.state.exemplars = ["ex1", "ex2"] ∧
    getCachedExemplars c9Call2.artifacts "op1" = some ["ex2"] ∧
    ¬ "ex1" ∈ (getCachedExemplars c9Call2.artifacts "op1").getD [] := by
  refine ⟨rfl, rfl, rfl, rfl, by decide⟩

/-- Oracles for the tactic-threshold runs. -/
def c6Oracles : ConvertOracles :=
  { bondedNewExemplars := fun _ => ["ex"]
    synthCode := fun _ _ => [("fn_v0", "synthesized")]
    execEnsemble := fun _ _ _ => some "val"
    conventional := fun _ _ => ["val"] }

/-- C6 counterexample: the advice-ensemble-with-validation tactic decides
to synthesize with zero accumulated exemplars (`0 % 200 == 0`), so an
operator of that tactic with an empty artifact cache does not answer its
first record through a bonded completion-service call: the call reaches
the unimplemented synthesis and raises. -/
theorem validation_tactic_synthesizes_at_zero_exemplars :
    shouldSynthesize .adviceEnsembleWithValidation
      (codeSynthInit emptyArtifactCache "op1") = true ∧
    (llmConvertCall .adviceEnsembleWithValidation c6Oracles "op1" ["f"] "cand"
        (codeSynthInit emptyArtifactCache "op1") emptyArtifactCache).outcome
      = .pyError "not implemented yet" := by
  exact ⟨rfl, rfl⟩

theorem fetchCachedCode_empty (opId : String) (fields : List FieldName) :
    fetchCachedCode emptyArtifactCache opId fields = [] := by
  unfold fetchCachedCode
  have hfound : fields.filterMap
      (fun f => (getCachedEnsemble emptyArtifactCache (opId ++ "_" ++ f)).map
        (fun ce => (f, ce))) = [] := by
    induction fields with
    | nil => rfl
    | cons f fs ih => simp [getCachedEnsemble, emptyArtifactCache, alookup, ih]
  rw [hfound]
  cases fields <;> simp [alookup]

theorem llmConvertAfterCode_codeSynthesized (oracles : ConvertOracles) (opId : String)
    (fields : List FieldName) (cand : Candidate) (st1 : CodeSynthState)
    (ac1 : ArtifactCache) (sn : Bool) :
    (llmConvertAfterCode oracles opId fields cand st1 ac1 sn).state.codeSynthesized
      = st1.codeSynthesized := by
  unfold llmConvertAfterCode bondedQueryFallback
  by_cases h : st1.fieldToCodeEnsemble.isEmpty = true
  · simp [h]
  · simp only [if_neg h]
    cases hr : runFields oracles cand st1.fieldToCodeEnsemble fields <;> simp [hr]

theorem llmConvertAfterCode_synthesizedNow (oracles : ConvertOracles) (opId : String)
    (fields : List FieldName) (cand : Candidate) (st1 : CodeSynthState)
    (ac1 : ArtifactCache) (sn : Bool) :
    (llmConvertAfterCode oracles opId fields cand st1 ac1 sn).synthesizedNow = sn := by
  unfold llmConvertAfterCode bondedQueryFallback
  by_cases h : st1.fieldToCodeEnsemble.isEmpty = true
  · simp [h]
  · simp only [if_neg h]
    cases hr : runFields oracles cand st1.fieldToCodeEnsemble fields <;> simp [hr]

theorem llmConvertCall_single_synthesizedNow (oracles : ConvertOracles) (opId : String)
    (fields : List FieldName) (cand : Candidate) (st : CodeSynthState) (ac : ArtifactCache) :
    (llmConvertCall .single oracles opId fields cand st ac).synthesizedNow
      = shouldSynthesize .single st := by
  unfold llmConvertCall
  by_cases h : shouldSynthesize .single st = true
  · rw [if_pos h, h]
    have hne : (decide (CodingStrategy.single = CodingStrategy.adviceEnsembleWithValidation)
        && !fields.isEmpty) = false := by simp
    rw [if_neg (by simp [hne])]
    exact llmConvertAfterCode_synthesizedNow ..
  · rw [if_neg h]
    rw [llmConvertAfterCode_synthesizedNow]
    exact (Bool.eq_false_iff.mpr h).symm

theorem llmConvertCall_single_codeSynthesized (oracles : ConvertOracles) (opId : String)
    (fields : List FieldName) (cand : Candidate) (st : CodeSynthState) (ac : ArtifactCache) :
    (llmConvertCall .single oracles opId fields cand st ac).state.codeSynthesized
      = (st.codeSynthesized || shouldSynthesize .single st) := by
  unfold llmConvertCall
  by_cases h : shouldSynthesize .single st = true
  · rw [if_pos h, h]
    have hne : (decide (CodingStrategy.single = CodingStrategy.adviceEnsembleWithValidation)
        && !fields.isEmpty) = false := by simp
    rw [if_neg (by simp [hne])]
    rw [llmConvertAfterCode_codeSynthesized]
    simp
  · rw [if_neg h]
    rw [llmConvertAfterCode_codeSynthesized]
    simp [Bool.eq_false_iff.mpr h]

theorem runCalls_single_synthCount (oracles : ConvertOracles) (opId : String)
    (fields : List FieldName) :
    ∀ (cands : List Candidate) (st : CodeSynthState) (ac : ArtifactCache),
      (st.codeSynthesized = true →
        synthCount (runCalls .single oracles opId fields cands st ac) = 0) ∧
      synthCount (runCalls .single oracles opId fields cands st ac) ≤ 1 := by
  intro cands
  induction cands with
  | nil => intro st ac; exact ⟨fun _ => rfl, by simp [runCalls, synthCount]⟩
  | cons c cs ih =>
      intro st ac
      set r := llmConvertCall .single oracles opId fields c st ac with hr
      have hrest := ih r.state r.artifacts
      by_cases hs : r.synthesizedNow = true
      · have hsynth : shouldSynthesize .single st = true := by
          rw [← llmConvertCall_single_synthesizedNow oracles opId fields c st ac, ← hr, hs]
        have hflag : r.state.codeSynthesized = true := by
          rw [hr, llmConvertCall_single_codeSynthesized, hsynth, Bool.or_true]
        have hzero := hrest.1 hflag
        have hcount : synthCount (runCalls .single oracles opId fields (c :: cs) st ac)
            = synthCount (runCalls .single oracles opId fields cs r.state r.artifacts) + 1 := by
          simp [runCalls, synthCount, List.filter, hs, ← hr]
        constructor
        · intro hst
          have hcontra : shouldSynthesize .single st = false := by
            simp [shouldSynthesize, hst]
          rw [hcontra] at hsynth
          exact absurd hsynth (by simp)
        · rw [hcount, hzero]
      · have hs2 : r.synthesizedNow = false := by
          cases hb : r.synthesizedNow
          · rfl
          · exact absurd hb hs
        have hcount : synthCount (runCalls .single oracles opId fields (c :: cs) st ac)
            = synthCount (runCalls .single oracles opId fields cs r.state r.artifacts) := by
          simp [runCalls, synthCount, List.filter, hs2, ← hr]
        constructor
        · intro hst
          have hflag : r.state.codeSynthesized = true := by
            rw [hr, llmConvertCall_single_codeSynthesized, hst, Bool.true_or]
          rw [hcount]
          exact hrest.1 hflag
        · rw [hcount]
          exact hrest.2

/-- C6 (amended): for every code-synthesis tactic except
advice-ensemble-with-validation, an operator with zero accumulated
exemplars and an empty artifact cache answers a record via a single bonded
completion-service call, synthesizing nothing and executing no synthesized
code; and the single-synthesis tactic synthesizes at most once over any
call sequence.  (The validation tactic is excluded: its
`_shouldSynthesize` is `len(exemplars) % 200 == 0`, which already fires at
zero exemplars; see the counterexample.) -/
theorem code_synthesis_threshold_and_single_synthesis :
    (∀ tactic ∈ [CodingStrategy.noneStrategy, CodingStrategy.single,
        CodingStrategy.exampleEnsemble, CodingStrategy.adviceEnsemble],
      ∀ (oracles : ConvertOracles) (opId : String) (fields : List FieldName)
        (cand : Candidate) (st : CodeSynthState), st.exemplars = [] →
        (llmConvertCall tactic oracles opId fields cand st emptyArtifactCache).outcome
            = .bonded (oracles.bondedNewExemplars cand) ∧
        (llmConvertCall tactic oracles opId fields cand st emptyArtifactCache).synthesizedNow
            = false) ∧
    (∀ (oracles : ConvertOracles) (opId : String) (fields : List FieldName)
        (cands : List Candidate) (st : CodeSynthState) (ac : ArtifactCache),
      synthCount (runCalls .single oracles opId fields cands st ac) ≤ 1) := by
  constructor
  · intro tactic htac oracles opId fields cand st hst
    have hnosynth : shouldSynthesize tactic st = false := by
      fin_cases htac <;> simp [shouldSynthesize, hst, numExemplarsDefault]
    unfold llmConvertCall
    rw [if_neg (by simp [hnosynth])]
    rw [fetchCachedCode_empty]
    unfold llmConvertAfterCode bondedQueryFallback
    exact ⟨rfl, rfl⟩
  · intro oracles opId fields cands st ac
    exact (runCalls_single_synthCount oracles opId fields cands st ac).2

/-- Witness for C6 at a concrete run: one call of a single-tactic operator
with no exemplars takes the bonded fallback, and the whole run synthesizes
at most once. -/
theorem code_synthesis_threshold_and_single_synthesis_witness :
    (llmConvertCall .single c6Oracles "op1" ["f"] "cand"
        (codeSynthInit emptyArtifactCache "op1") emptyArtifactCache).outcome
      = .bonded (c6Oracles.bondedNewExemplars "cand") ∧
    synthCount (runCalls .single c6Oracles "op1" ["f"] ["cand"]
        (codeSynthInit emptyArtifactCache "op1") emptyArtifactCache) ≤ 1 :=
  ⟨(code_synthesis_threshold_and_single_synthesis.1 .single (by decide) c6Oracles
      "op1" ["f"] "cand" (codeSynthInit emptyArtifactCache "op1") rfl).1,
   code_synthesis_threshold_and_single_synthesis.2 c6Oracles "op1" ["f"] ["cand"]
     (codeSynthInit emptyArtifactCache "op1") emptyArtifactCache⟩

theorem runFields_total (oracles : ConvertOracles) (cand : Candidate)
    (f2c : List (FieldName × CodeEnsemble))
    (hconv : ∀ f : FieldName, oracles.conventional f cand ≠ []) :
    ∀ fields : List FieldName,
      ∃ fvs, runFields oracles cand f2c fields = some fvs ∧ fvs.map Prod.fst = fields := by
  intro fields
  induction fields with
  | nil => exact ⟨[], rfl, rfl⟩
  | cons f fs ih =>
      obtain ⟨fvs, h1, h2⟩ := ih
      have hans : ∃ v, (match oracles.execEnsemble f ((alookup f f2c).getD []) cand with
          | some v => some v
          | none => (oracles.conventional f cand).head?) = some v := by
        cases he : oracles.execEnsemble f ((alookup f f2c).getD []) cand with
        | some v => exact ⟨v, rfl⟩
        | none =>
            cases hc : oracles.conventional f cand with
            | nil => exact absurd hc (hconv f)
            | cons a t => exact ⟨a, by simp⟩
      obtain ⟨v, hv⟩ := hans
      refine ⟨(f, v) :: fvs, ?_, by simp [h2]⟩
      simp only [runFields]
      rw [hv, h1]

/-- C7: whenever field extraction yields no usable value — the bonded
query returned an empty per-field answer list, or every function of the
synthesized ensemble failed or returned `None` — the operator falls back
to a conventional single-field completion-service query for that field.
Given that the conventional collaborator answers every field (§6: the
completion service returns text), the bonded convert keeps one non-empty
answer list per requested field, the ensemble execution loop produces one
value per requested field, and a call of the code-synthesis operator with
any non-validation tactic ends in a bonded answer or a full record, never
in a raised error: no record fails whole and nothing aborts the stream. -/
theorem field_level_fallback_never_fails_record :
    (∀ (parseAnswer : List (FieldName × List Value)) (conventional : FieldName → List Value),
      (∀ f, conventional f ≠ []) →
      (bondedConvert parseAnswer conventional).map Prod.fst = parseAnswer.map Prod.fst ∧
      ∀ fv ∈ bondedConvert parseAnswer conventional, fv.2 ≠ []) ∧
    (∀ (oracles : ConvertOracles) (cand : Candidate)
        (f2c : List (FieldName × CodeEnsemble)) (fields : List FieldName),
      (∀ f, oracles.conventional f cand ≠ []) →
      ∃ fvs, runFields oracles cand f2c fields = some fvs ∧ fvs.map Prod.fst = fields) ∧
    (∀ (tactic : CodingStrategy) (oracles : ConvertOracles) (opId : String)
        (fields : List FieldName) (cand : Candidate) (st : CodeSynthState)
        (ac : ArtifactCache),
      tactic ≠ .adviceEnsembleWithValidation →
      (∀ f, oracles.conventional f cand ≠ []) →
      (llmConvertCall tactic oracles opId fields cand st ac).outcome
          = .bonded (oracles.bondedNewExemplars cand) ∨
      ∃ fvs, (llmConvertCall tactic oracles opId fields cand st ac).outcome
          = .ranCode fvs ∧ fvs.map Prod.fst = fields) := by
  have hAfter : ∀ (oracles : ConvertOracles) (opId : String) (fields : List FieldName)
      (cand : Candidate) (st1 : CodeSynthState) (ac1 : ArtifactCache) (sn : Bool),
      (∀ f, oracles.conventional f cand ≠ []) →
      (llmConvertAfterCode oracles opId fields cand st1 ac1 sn).outcome
          = .bonded (oracles.bondedNewExemplars cand) ∨
      ∃ fvs, (llmConvertAfterCode oracles opId fields cand st1 ac1 sn).outcome
          = .ranCode fvs ∧ fvs.map Prod.fst = fields := by
    intro oracles opId fields cand st1 ac1 sn hconv
    unfold llmConvertAfterCode bondedQueryFallback
    by_cases h : st1.fieldToCodeEnsemble.isEmpty = true
    · simp [h]
    · obtain ⟨fvs, h1, h2⟩ := runFields_total oracles cand st1.fieldToCodeEnsemble hconv fields
      rw [if_neg h, h1]
      exact Or.inr ⟨fvs, rfl, h2⟩
  refine ⟨?_, ?_, ?_⟩
  · intro parseAnswer conventional hconv
    constructor
    · unfold bondedConvert
      rw [List.map_map]
      congr 1
      funext fv
      by_cases h : fv.2 = [] <;> simp [h]
    · intro fv hmem
      unfold bondedConvert at hmem
      obtain ⟨x, hx, hfx⟩ := List.mem_map.mp hmem
      by_cases h : x.2 = []
      · have hfv : fv = (x.1, conventional x.1) := by rw [← hfx]; simp [h]
        rw [hfv]
        exact hconv x.1
      · have hfv : fv = x := by rw [← hfx]; simp [h]
        rw [hfv]
        exact h
  · intro oracles cand f2c fields hconv
    exact runFields_total oracles cand f2c hconv fields
  · intro tactic oracles opId fields cand st ac htac hconv
    unfold llmConvertCall
    by_cases h : shouldSynthesize tactic st = true
    · rw [if_pos h]
      have hne : (decide (tactic = CodingStrategy.adviceEnsembleWithValidation)
          && !fields.isEmpty) = false := by
        simp [htac]
      rw [if_neg (by simp [hne])]
      exact hAfter oracles opId fields cand _ _ true hconv
    · rw [if_neg h]
      exact hAfter oracles opId fields cand _ _ false hconv

/-- Witness for C7: an empty bonded answer for field `a` is replaced by the
conventional answer, and with a failing ensemble the per-field loop still
returns a value for the requested field. -/
theorem field_level_fallback_never_fails_record_witness :
    ((bondedConvert [("a", []), ("b", ["y"])] (fun _ => ["z"])).map Prod.fst = ["a", "b"] ∧
      ∀ fv ∈ bondedConvert [("a", []), ("b", ["y"])] (fun _ => ["z"]), fv.2 ≠ []) ∧
    ∃ fvs, runFields c9Oracles "cand" [("f", [("fn_v0", "code")])] ["f"] = some fvs ∧
      fvs.map Prod.fst = ["f"] :=
  ⟨⟨((field_level_fallback_never_fails_record).1 [("a", []), ("b", ["y"])] (fun _ => ["z"])
       (fun _ => by simp)).1.trans (by rfl),
    ((field_level_fallback_never_fails_record).1 [("a", []), ("b", ["y"])] (fun _ => ["z"])
       (fun _ => by simp)).2⟩,
   (field_level_fallback_never_fails_record).2.1 c9Oracles "cand"
     [("f", [("fn_v0", "code")])] ["f"] (fun _ => by simp [c9Oracles])⟩

theorem canonEntries_eq_map (l : List (String × Json)) :
    canonEntries l = l.map (fun kv => (kv.1, canon kv.2)) := by
  induction l with
  | nil => rfl
  | cons kv rest ih =>
      obtain ⟨k, v⟩ := kv
      simp [canonEntries, ih]

theorem pairwise_keyLt_of_keyLe (l : List (String × Json))
    (hle : List.Pairwise (fun a b : String × Json => a.1 ≤ b.1) l)
    (hnd : (l.map Prod.fst).Nodup) :
    List.Pairwise (fun a b : String × Json => a.1 < b.1) l := by
  induction l with
  | nil => exact List.Pairwise.nil
  | cons a t ih =>
      rw [List.pairwise_cons] at hle ⊢
      rw [List.map_cons, List.nodup_cons] at hnd
      refine ⟨fun b hb => lt_of_le_of_ne (hle.1 b hb) ?_, ih hle.2 hnd.2⟩
      intro heq
      apply hnd.1
      rw [heq]
      exact List.mem_map_of_mem Prod.fst hb

theorem sortEntries_sorted (l : List (String × Json)) :
    List.Pairwise (fun a b : String × Json => a.1 ≤ b.1) (sortEntries l) := by
  haveI : IsTotal (String × Json) (fun a b : String × Json => a.1 ≤ b.1) :=
    ⟨fun a b => le_total a.1 b.1⟩
  haveI : IsTrans (String × Json) (fun a b : String × Json => a.1 ≤ b.1) :=
    ⟨fun a b c h1 h2 => le_trans h1 h2⟩
  exact List.sorted_insertionSort _ l

theorem sortEntries_perm (l : List (String × Json)) : (sortEntries l).Perm l :=
  List.perm_insertionSort _ l

theorem sortEntries_eq_of_perm (l1 l2 : List (String × Json)) (hp : l1.Perm l2)
    (hnd : (l1.map Prod.fst).Nodup) : sortEntries l1 = sortEntries l2 := by
  haveI : IsAntisymm (String × Json) (fun a b : String × Json => a.1 < b.1) :=
    ⟨fun a b h1 h2 => absurd (lt_trans h1 h2) (lt_irrefl _)⟩
  have hnd1 : ((sortEntries l1).map Prod.fst).Nodup :=
    (((sortEntries_perm l1).map Prod.fst).nodup_iff).mpr hnd
  have hnd2 : ((sortEntries l2).map Prod.fst).Nodup :=
    (((sortEntries_perm l2).map Prod.fst).nodup_iff).mpr (((hp.map Prod.fst).nodup_iff).mp hnd)
  have hperm : (sortEntries l1).Perm (sortEntries l2) :=
    (sortEntries_perm l1).trans (hp.trans (sortEntries_perm l2).symm)
  exact List.eq_of_perm_of_sorted hperm
    (pairwise_keyLt_of_keyLe _ (sortEntries_sorted l1) hnd1)
    (pairwise_keyLt_of_keyLe _ (sortEntries_sorted l2) hnd2)

theorem serializeEntries_keys (s : PZSet) :
    (serializeEntries s).map Prod.fst
      = ["version", "schema", "source", "desc", "filter", "udf", "agg_func", "fnid",
         "cardinality", "image_conversion", "limit", "group_by"] := by
  cases s with
  | mk schema source desc fil udf aggFunc fnid cardinality imageConversion limit groupBy => rfl

/-- C1: `universal_identifier` depends only on the structural content
(schema, source, parameters) of the `Set` chain and not on the order in
which the serialization dictionary lists its keys: hashing any
permutation of the serialized entries yields the identifier of the chain,
because `json.dumps(d, sort_keys=True)` canonicalizes the key order
before the SHA-256 is taken.  Identity of the python objects plays no
role (the embedding is pure), so two structurally identical chains built
independently get identical identifiers. -/
theorem universal_identifier_key_order_independent (s : PZSet)
    (d : List (String × Json)) (hperm : d.Perm (serializeEntries s)) :
    uidOfEntries d = universal_identifier s := by
  unfold universal_identifier uidOfEntries
  suffices h : dumpsSorted (Json.obj d) = dumpsSorted (Json.obj (serializeEntries s)) by rw [h]
  unfold dumpsSorted
  have hc : ∀ l : List (String × Json),
      canon (Json.obj l) = Json.obj (sortEntries (canonEntries l)) := fun l => rfl
  rw [hc, hc]
  suffices h2 : sortEntries (canonEntries d)
      = sortEntries (canonEntries (serializeEntries s)) by rw [h2]
  have hmapfst : ∀ l : List (String × Json),
      (l.map (fun kv : String × Json => (kv.1, canon kv.2))).map Prod.fst
        = l.map Prod.fst := by
    intro l
    rw [List.map_map]
    rfl
  apply sortEntries_eq_of_perm
  · rw [canonEntries_eq_map, canonEntries_eq_map]
    exact hperm.map _
  · rw [canonEntries_eq_map, hmapfst]
    exact ((hperm.map Prod.fst).nodup_iff).mpr (by rw [serializeEntries_keys]; decide)

/-- Exchange the first two items of a list (a concrete reordering). -/
def swap2 {γ : Type} : List γ → List γ
  | a :: b :: t => b :: a :: t
  | l => l

theorem swap2_perm {γ : Type} (l : List γ) : (swap2 l).Perm l := by
  match l with
  | [] => exact List.Perm.refl _
  | [a] => exact List.Perm.refl _
  | a :: b :: t => exact List.Perm.swap a b t

/-- A small concrete `Set` chain: a schema conversion over a raw data
source. -/
def c1Set : PZSet :=
  .mk (Json.obj [("type", Json.str "TestSchema")])
      (.dataSource (Json.obj [("path", Json.str "testdata")]))
      (some "demo") none none none none (Json.str "oneToOne") Json.null Json.null none

/-- Witness for C1: hashing the serialization entries of the concrete
chain with its first two keys exchanged yields the identifier of the
chain. -/
theorem universal_identifier_key_order_independent_witness :
    uidOfEntries (swap2 (serializeEntries c1Set)) = universal_identifier c1Set :=
  universal_identifier_key_order_independent c1Set (swap2 (serializeEntries c1Set))
    (swap2_perm (serializeEntries c1Set))
